import Mathlib

/-!
# A verification development for the p64lang interpreter

This file gives a shallow embedding of the p64lang core (src/src/lib.rs and
src/src/interpreter.rs) and proves properties of it.  The embedding follows the
current generation of the code: lib.rs drives the `Evaluatable` / `Executable`
implementations of src/src/interpreter.rs (src/src/ast.rs in the tree is a
previous generation of the same module — owned strings, no List/Dict values, a
`Print` statement — and its evaluator impls do not type-check against the
current interpreter; where it conflicts, interpreter.rs is authoritative).

Modelling conventions:
  * Mutable state (`&mut ScopeChain`) becomes explicit state passing: every
    evaluation returns its result together with the updated chain.
  * Recursion in the tree-walking evaluator is not structurally bounded
    (script functions recurse, `loop` iterates), so the evaluator takes a fuel
    argument and returns `Option`; `Option.none` means "no result" (the Rust
    program diverges or aborts).
  * IEEE-754 doubles (`f64`) are modelled by `ℚ`.  Every theorem below depends
    only on the constructor of the produced `Value`, never on the payload of a
    `Value.real`.
  * `isize` is modelled by `Int`; the `as usize` cast is taken modulo 2^64 as
    on the 64-bit targets the crate builds for.  The unconditional Rust panics
    of `isize` division/remainder — a zero divisor, and the overflowing
    `isize::MIN / -1` and `isize::MIN % -1` — are modelled by `Option.none`
    in `Opcode.calc_i`.
  * The source's HashMaps are modelled by association lists with
    replace-or-append insertion, which has the same lookup semantics.
  * `NativeFunction` trait objects are modelled by `Nat` handles resolved
    through an environment `NativeEnv`; exactly like the Rust trait method
    `execute(&self, scopes: &mut ScopeChain, args: &Vec<Value>) -> Value`, a
    native receives the current chain and the argument values (and, being host
    code with `&mut` access, may return an updated chain).
  * The parser is the generated LALRPOP module src/src/p64lang.rs; `interpret`
    only inspects whether parsing succeeded, so the parser is abstracted as a
    function argument `parse : String → Option StmtBlock`.
-/

namespace P64Lang

/-- Identifiers: `ast::Ident` (a borrowed `&'src str` in the source). -/
abbrev Ident := String

/-- `ast::Value`, the runtime value type consumed by src/src/interpreter.rs:
`None`, `Int(isize)`, `Real(f64)`, `Str`, `Bool`, `List(Vec<Value>)`,
`Dict(HashMap<Ident, Value>)` (spec §3; every variant appears in the
interpreter's pattern matches). -/
inductive Value where
  | none : Value
  | int (n : Int) : Value
  | real (x : ℚ) : Value
  | str (s : String) : Value
  | bool (b : Bool) : Value
  | list (xs : List Value) : Value
  | dict (m : List (Ident × Value)) : Value

/-- First-match lookup in an association list (model of `HashMap::get`). -/
def alistGet {α : Type} : List (Ident × α) → Ident → Option α
  | [], _ => Option.none
  | (k, v) :: rest, key => if k = key then some v else alistGet rest key

/-- Replace-or-append insertion (model of `HashMap::insert`). -/
def alistInsert {α : Type} : List (Ident × α) → Ident → α → List (Ident × α)
  | [], key, val => [(key, val)]
  | (k, v) :: rest, key, val =>
    if k = key then (k, val) :: rest else (k, v) :: alistInsert rest key val

/-- `ast::Opcode`. -/
inductive Opcode where
  | add | div | mod | mul | sub
  | lessThan | greaterThan | lessThanOrEqual | greaterThanOrEqual
  | equal | notEqual
  | logicalAnd | logicalOr | logicalXor
  | not

/-- `ast::Expr` as consumed by src/src/interpreter.rs (spec §3). -/
inductive Expr where
  | int (n : Int) : Expr
  | real (x : ℚ) : Expr
  | str (s : String) : Expr
  | bool (b : Bool) : Expr
  | none : Expr
  | id (x : Ident) : Expr
  | list (es : List Expr) : Expr
  | dict (items : List (Ident × Expr)) : Expr
  | listElement (x : Ident) (idx : Expr) : Expr
  | funcCall (f : Ident) (args : List Expr) : Expr
  | binOp (l : Expr) (op : Opcode) (r : Expr) : Expr
  | unaryOp (op : Opcode) (e : Expr) : Expr

/-- `ast::Stmt` as consumed by src/src/interpreter.rs (spec §3).  `Break` and
`Loop` are named `breakStmt` / `loop` here (`break` is reserved in Lean). -/
inductive Stmt where
  | letStmt (x : Ident) (e : Expr) : Stmt
  | fnDef (f : Ident) (args : List Ident) (body : List Stmt) : Stmt
  | ret (e : Expr) : Stmt
  | ifStmt (cond : Expr) (body : List Stmt) : Stmt
  | ifElse (cond : Expr) (body : List Stmt) (elseBody : List Stmt) : Stmt
  | breakStmt : Stmt
  | loop (body : List Stmt) : Stmt
  | listItemAssignment (x : Ident) (idx : Expr) (val : Expr) : Stmt
  | expr (e : Expr) : Stmt

/-- `ast::StmtBlock = Vec<Box<Stmt>>`. -/
abbrev StmtBlock := List Stmt

/-- `ast::ExecResult`: `None`, `Error(&'static str)`, `Break`, `Return(Value)`.
`Break` is named `breakResult` (`break` is reserved in Lean). -/
inductive ExecResult where
  | none : ExecResult
  | error (msg : String) : ExecResult
  | breakResult : ExecResult
  | ret (v : Value) : ExecResult

/-- `ast::Function { args: Vec<Ident>, stmts: StmtBlock }`. -/
structure Function where
  args : List Ident
  stmts : StmtBlock

/-- `interpreter::Scope`: maps from identifiers to script functions, native
functions and variables.  Native functions are `Rc<NativeFunction>` trait
objects in the source; here they are `Nat` handles interpreted by a
`NativeEnv`. -/
structure Scope where
  funcs : List (Ident × Function)
  native_funcs : List (Ident × Nat)
  vars : List (Ident × Value)

/-- `Scope::new`. -/
def Scope.new : Scope := ⟨[], [], []⟩

/-- `Scope::from_args`: a scope whose variables are the zipped
(parameter, value) pairs, inserted in order. -/
def Scope.from_args (args : List (Ident × Value)) : Scope :=
  ⟨[], [], args.foldl (fun m a => alistInsert m a.1 a.2) []⟩

/-- `interpreter::ScopeChain`: a stack of scopes.  The Rust `Vec` keeps the
root scope first and pushes at the end; we keep the top of the stack (the
innermost scope) at the head of the list, so `Vec::push` is `cons`,
`last_mut` is the head, and `iter().rev()` is left-to-right traversal. -/
structure ScopeChain where
  scopes : List Scope

/-- `ScopeChain::new`. -/
def ScopeChain.new : ScopeChain := ⟨[]⟩

/-- `ScopeChain::from_scope`: a chain with a single root scope. -/
def ScopeChain.from_scope (scope : Scope) : ScopeChain := ⟨[scope]⟩

/-- `ScopeChain::push`. -/
def ScopeChain.push (c : ScopeChain) (scope : Scope) : ScopeChain :=
  ⟨scope :: c.scopes⟩

/-- `ScopeChain::pop` (`Vec::pop` returns the removed scope, if any). -/
def ScopeChain.pop (c : ScopeChain) : Option Scope × ScopeChain :=
  match c.scopes with
  | [] => (Option.none, c)
  | s :: rest => (some s, ⟨rest⟩)

/-- `ScopeChain::insert_func`: insert into the innermost scope (no-op on an
empty chain). -/
def ScopeChain.insert_func (c : ScopeChain) (key : Ident) (val : Function) :
    ScopeChain :=
  match c.scopes with
  | [] => c
  | s :: rest => ⟨{ s with funcs := alistInsert s.funcs key val } :: rest⟩

/-- `ScopeChain::insert_var`: insert into the innermost scope (no-op on an
empty chain). -/
def ScopeChain.insert_var (c : ScopeChain) (key : Ident) (val : Value) :
    ScopeChain :=
  match c.scopes with
  | [] => c
  | s :: rest => ⟨{ s with vars := alistInsert s.vars key val } :: rest⟩

/-- Loop body of `ScopeChain::insert_dict_item`: walk innermost-outward; at the
first scope whose variable `key` is a Dict, insert and stop (a scope whose
variable of that name is not a Dict is skipped, the walk continues). -/
def insertDictItemScopes : List Scope → Ident → Ident → Value → List Scope
  | [], _, _, _ => []
  | s :: rest, key, idx, val =>
    match alistGet s.vars key with
    | some (Value.dict d) =>
      { s with vars := alistInsert s.vars key (Value.dict (alistInsert d idx val)) } :: rest
    | _ => s :: insertDictItemScopes rest key idx val

/-- `ScopeChain::insert_dict_item`. -/
def ScopeChain.insert_dict_item (c : ScopeChain) (key : Ident) (idx : Ident)
    (val : Value) : ScopeChain :=
  ⟨insertDictItemScopes c.scopes key idx val⟩

/-- `Vec::resize(idx + 1, Value::None)` guarded by `lst.len() <= idx`. -/
def listGrow (lst : List Value) (idx : Nat) : List Value :=
  if lst.length ≤ idx then lst ++ List.replicate (idx + 1 - lst.length) Value.none
  else lst

/-- Loop body of `ScopeChain::insert_list_item`: walk innermost-outward; at the
first scope whose variable `key` is a List, grow it to cover `idx` if needed,
write `val` at `idx` and stop (a scope whose variable of that name is not a
List is skipped, the walk continues). -/
def insertListItemScopes : List Scope → Ident → Nat → Value → List Scope
  | [], _, _, _ => []
  | s :: rest, key, idx, val =>
    match alistGet s.vars key with
    | some (Value.list lst) =>
      { s with vars :=
          alistInsert s.vars key (Value.list ((listGrow lst idx).set idx val)) } :: rest
    | _ => s :: insertListItemScopes rest key idx val

/-- `ScopeChain::insert_list_item`. -/
def ScopeChain.insert_list_item (c : ScopeChain) (key : Ident) (idx : Nat)
    (val : Value) : ScopeChain :=
  ⟨insertListItemScopes c.scopes key idx val⟩

/-- Loop body of `ScopeChain::resolve_func`. -/
def resolveFuncScopes : List Scope → Ident → Option Function
  | [], _ => Option.none
  | s :: rest, key =>
    match alistGet s.funcs key with
    | some f => some f
    | Option.none => resolveFuncScopes rest key

/-- `ScopeChain::resolve_func`: first hit walking innermost-outward. -/
def ScopeChain.resolve_func (c : ScopeChain) (key : Ident) : Option Function :=
  resolveFuncScopes c.scopes key

/-- Loop body of `ScopeChain::resolve_native_func`. -/
def resolveNativeFuncScopes : List Scope → Ident → Option Nat
  | [], _ => Option.none
  | s :: rest, key =>
    match alistGet s.native_funcs key with
    | some f => some f
    | Option.none => resolveNativeFuncScopes rest key

/-- `ScopeChain::resolve_native_func`: first hit walking innermost-outward. -/
def ScopeChain.resolve_native_func (c : ScopeChain) (key : Ident) : Option Nat :=
  resolveNativeFuncScopes c.scopes key

/-- Loop body of `ScopeChain::resolve_var`. -/
def resolveVarScopes : List Scope → Ident → Option Value
  | [], _ => Option.none
  | s :: rest, key =>
    match alistGet s.vars key with
    | some v => some v
    | Option.none => resolveVarScopes rest key

/-- `ScopeChain::resolve_var`: first hit walking innermost-outward. -/
def ScopeChain.resolve_var (c : ScopeChain) (key : Ident) : Option Value :=
  resolveVarScopes c.scopes key

/-- The `as usize` cast of an `isize` on a 64-bit target: reduce modulo 2^64.
(18446744073709551616 = 2^64.) -/
def usizeOfInt (i : Int) : Nat := (i % (18446744073709551616 : Int)).toNat

/-- `isize::MIN` on a 64-bit target: -2^63. -/
def isizeMin : Int := -9223372036854775808

/-- `Opcode::calc_i`: integer arithmetic.  Rust `/` and `%` on `isize`
truncate toward zero (`Int.tdiv` / `Int.tmod`) and panic unconditionally both
on a zero divisor and on the overflowing `isize::MIN / -1` and
`isize::MIN % -1`; the panics are modelled by `Option.none`.  (The
debug-only wrap-around checks of `+`, `-`, `*` are not modelled: no theorem
below depends on the magnitude of an integer payload.) -/
def Opcode.calc_i : Opcode → Int → Int → Option Int
  | Opcode.add, l, r => some (l + r)
  | Opcode.div, l, r =>
    if r = 0 ∨ (l = isizeMin ∧ r = -1) then Option.none else some (Int.tdiv l r)
  | Opcode.mod, l, r =>
    if r = 0 ∨ (l = isizeMin ∧ r = -1) then Option.none else some (Int.tmod l r)
  | Opcode.mul, l, r => some (l * r)
  | Opcode.sub, l, r => some (l - r)
  | _, _, _ => some 0

/-- `Opcode::calc_f`: floating-point arithmetic, on the ℚ model of `f64`.
(`f64` division never panics; ℚ division is total with `x / 0 = 0`, which is
adequate because no theorem below inspects a `real` payload.) -/
def Opcode.calc_f : Opcode → ℚ → ℚ → ℚ
  | Opcode.add, l, r => l + r
  | Opcode.div, l, r => l / r
  | Opcode.mul, l, r => l * r
  | Opcode.sub, l, r => l - r
  | _, _, _ => 0

/-- `Opcode::logical`: relational and logical operations (comparisons mix
`Int` and `Real` by widening the integer; strings compare lexicographically;
any combination outside the table yields `Value::None`). -/
def Opcode.logical : Opcode → Value → Value → Value
  | Opcode.equal, Value.int l, Value.int r => Value.bool (decide (l = r))
  | Opcode.equal, Value.int l, Value.real r => Value.bool (decide ((l : ℚ) = r))
  | Opcode.equal, Value.real l, Value.int r => Value.bool (decide (l = (r : ℚ)))
  | Opcode.equal, Value.real l, Value.real r => Value.bool (decide (l = r))
  | Opcode.equal, Value.str l, Value.str r => Value.bool (decide (l = r))
  | Opcode.equal, _, _ => Value.none
  | Opcode.notEqual, Value.int l, Value.int r => Value.bool (decide (l ≠ r))
  | Opcode.notEqual, Value.int l, Value.real r => Value.bool (decide ((l : ℚ) ≠ r))
  | Opcode.notEqual, Value.real l, Value.int r => Value.bool (decide (l ≠ (r : ℚ)))
  | Opcode.notEqual, Value.real l, Value.real r => Value.bool (decide (l ≠ r))
  | Opcode.notEqual, Value.str l, Value.str r => Value.bool (decide (l ≠ r))
  | Opcode.notEqual, _, _ => Value.none
  | Opcode.lessThan, Value.int l, Value.int r => Value.bool (decide (l < r))
  | Opcode.lessThan, Value.int l, Value.real r => Value.bool (decide ((l : ℚ) < r))
  | Opcode.lessThan, Value.real l, Value.int r => Value.bool (decide (l < (r : ℚ)))
  | Opcode.lessThan, Value.real l, Value.real r => Value.bool (decide (l < r))
  | Opcode.lessThan, Value.str l, Value.str r => Value.bool (decide (l < r))
  | Opcode.lessThan, _, _ => Value.none
  | Opcode.greaterThan, Value.int l, Value.int r => Value.bool (decide (l > r))
  | Opcode.greaterThan, Value.int l, Value.real r => Value.bool (decide ((l : ℚ) > r))
  | Opcode.greaterThan, Value.real l, Value.int r => Value.bool (decide (l > (r : ℚ)))
  | Opcode.greaterThan, Value.real l, Value.real r => Value.bool (decide (l > r))
  | Opcode.greaterThan, Value.str l, Value.str r => Value.bool (decide (l > r))
  | Opcode.greaterThan, _, _ => Value.none
  | Opcode.lessThanOrEqual, Value.int l, Value.int r => Value.bool (decide (l ≤ r))
  | Opcode.lessThanOrEqual, Value.int l, Value.real r => Value.bool (decide ((l : ℚ) ≤ r))
  | Opcode.lessThanOrEqual, Value.real l, Value.int r => Value.bool (decide (l ≤ (r : ℚ)))
  | Opcode.lessThanOrEqual, Value.real l, Value.real r => Value.bool (decide (l ≤ r))
  | Opcode.lessThanOrEqual, Value.str l, Value.str r => Value.bool (decide (l ≤ r))
  | Opcode.lessThanOrEqual, _, _ => Value.none
  | Opcode.greaterThanOrEqual, Value.int l, Value.int r => Value.bool (decide (l ≥ r))
  | Opcode.greaterThanOrEqual, Value.int l, Value.real r => Value.bool (decide ((l : ℚ) ≥ r))
  | Opcode.greaterThanOrEqual, Value.real l, Value.int r => Value.bool (decide (l ≥ (r : ℚ)))
  | Opcode.greaterThanOrEqual, Value.real l, Value.real r => Value.bool (decide (l ≥ r))
  | Opcode.greaterThanOrEqual, Value.str l, Value.str r => Value.bool (decide (l ≥ r))
  | Opcode.greaterThanOrEqual, _, _ => Value.none
  | Opcode.logicalAnd, Value.bool l, Value.bool r => Value.bool (l && r)
  | Opcode.logicalAnd, _, _ => Value.none
  | Opcode.logicalOr, Value.bool l, Value.bool r => Value.bool (l || r)
  | Opcode.logicalOr, _, _ => Value.none
  | Opcode.logicalXor, Value.bool l, Value.bool r => Value.bool ((l || r) && !(l && r))
  | Opcode.logicalXor, _, _ => Value.none
  | _, _, _ => Value.none

/-- `Opcode::eval`: dispatch on the operand types.  `Option.none` propagates
the panic of `calc_i` (`%` with a zero divisor); every type mismatch softens
to `some Value.none`. -/
def Opcode.eval (op : Opcode) (l r : Value) : Option Value :=
  match op with
  | Opcode.add | Opcode.mul | Opcode.sub =>
    match l, r with
    | Value.int a, Value.int b => (op.calc_i a b).map Value.int
    | Value.int a, Value.real y => some (Value.real (op.calc_f (a : ℚ) y))
    | Value.real x, Value.int b => some (Value.real (op.calc_f x (b : ℚ)))
    | Value.real x, Value.real y => some (Value.real (op.calc_f x y))
    | _, _ => some Value.none
  | Opcode.div =>
    match l, r with
    | Value.int a, Value.int b => some (Value.real (op.calc_f (a : ℚ) (b : ℚ)))
    | Value.int a, Value.real y => some (Value.real (op.calc_f (a : ℚ) y))
    | Value.real x, Value.int b => some (Value.real (op.calc_f x (b : ℚ)))
    | Value.real x, Value.real y => some (Value.real (op.calc_f x y))
    | _, _ => some Value.none
  | Opcode.mod =>
    match l, r with
    | Value.int a, Value.int b => (op.calc_i a b).map Value.int
    | _, _ => some Value.none
  | Opcode.equal | Opcode.notEqual | Opcode.lessThan | Opcode.greaterThan
  | Opcode.lessThanOrEqual | Opcode.greaterThanOrEqual
  | Opcode.logicalAnd | Opcode.logicalOr | Opcode.logicalXor =>
    some (op.logical l r)
  | _ => some Value.none

/-- `Opcode::eval_unary`: `!Bool(x) = Bool(!x)`, `!None = Bool(true)`, any
other operand gives `Bool(false)`; a non-unary opcode gives `Value::None`. -/
def Opcode.eval_unary : Opcode → Value → Value
  | Opcode.not, Value.bool b => Value.bool (!b)
  | Opcode.not, Value.none => Value.bool true
  | Opcode.not, _ => Value.bool false
  | _, _ => Value.none

/-- Environment interpreting `Rc<NativeFunction>` handles.  A native receives
the current chain and the evaluated arguments and produces a value and the
possibly-updated chain (`execute(&self, &mut ScopeChain, &Vec<Value>) ->
Value`). -/
abbrev NativeEnv := Nat → ScopeChain → List Value → Value × ScopeChain

mutual

/-- `<Expr as Evaluatable>::eval` (src/src/interpreter.rs).  Fuel is consumed
once per recursive call; `Option.none` means the source program produces no
result within the given fuel (or aborts on a panic). -/
def evalExpr (nenv : NativeEnv) : Nat → Expr → ScopeChain → Option (Value × ScopeChain)
  | 0, _, _ => Option.none
  | n + 1, e, scopes =>
    match e with
    | Expr.binOp l op r =>
      match evalExpr nenv n l scopes with
      | Option.none => Option.none
      | some (lv, s1) =>
        match evalExpr nenv n r s1 with
        | Option.none => Option.none
        | some (rv, s2) =>
          match op.eval lv rv with
          | Option.none => Option.none
          | some v => some (v, s2)
    | Expr.bool b => some (Value.bool b, scopes)
    | Expr.dict items =>
      match evalDictItems nenv n items [] scopes with
      | Option.none => Option.none
      | some (m, s1) => some (Value.dict m, s1)
    | Expr.funcCall funcId args =>
      match evalExprList nenv n args scopes with
      | Option.none => Option.none
      | some (evalArgs, s1) =>
        match s1.resolve_func funcId with
        | some f => execFunction nenv n f s1 evalArgs
        | Option.none =>
          match s1.resolve_native_func funcId with
          | some nf => some (nenv nf s1 evalArgs)
          | Option.none => some (Value.none, s1)
    | Expr.id x =>
      match scopes.resolve_var x with
      | some v => some (v, scopes)
      | Option.none => some (Value.none, scopes)
    | Expr.int k => some (Value.int k, scopes)
    | Expr.list es =>
      match evalExprList nenv n es scopes with
      | Option.none => Option.none
      | some (vals, s1) => some (Value.list vals, s1)
    | Expr.listElement x idxExpr =>
      match evalExpr nenv n idxExpr scopes with
      | Option.none => Option.none
      | some (collIdx, s1) =>
        match s1.resolve_var x with
        | some val =>
          match collIdx with
          | Value.int idx =>
            match val with
            | Value.list lst =>
              match lst.get? (usizeOfInt idx) with
              | some v => some (v, s1)
              | Option.none => some (Value.none, s1)
            | _ => some (Value.none, s1)
          | Value.str s =>
            match val with
            | Value.dict d =>
              match alistGet d s with
              | some v => some (v, s1)
              | Option.none => some (Value.none, s1)
            | _ => some (Value.none, s1)
          | _ => some (Value.none, s1)
        | Option.none => some (Value.none, s1)
    | Expr.none => some (Value.none, scopes)
    | Expr.real x => some (Value.real x, scopes)
    | Expr.str s => some (Value.str s, scopes)
    | Expr.unaryOp op x =>
      match evalExpr nenv n x scopes with
      | Option.none => Option.none
      | some (v, s1) => some (op.eval_unary v, s1)

/-- `args.iter().map(|x| x.eval(scopes)).collect()` — left-to-right evaluation
of an expression list, threading the chain. -/
def evalExprList (nenv : NativeEnv) :
    Nat → List Expr → ScopeChain → Option (List Value × ScopeChain)
  | 0, _, _ => Option.none
  | _ + 1, [], scopes => some ([], scopes)
  | n + 1, e :: rest, scopes =>
    match evalExpr nenv n e scopes with
    | Option.none => Option.none
    | some (v, s1) =>
      match evalExprList nenv n rest s1 with
      | Option.none => Option.none
      | some (vs, s2) => some (v :: vs, s2)

/-- The `Expr::Dict` loop: evaluate each entry in order and insert it into the
map under construction. -/
def evalDictItems (nenv : NativeEnv) :
    Nat → List (Ident × Expr) → List (Ident × Value) → ScopeChain →
    Option (List (Ident × Value) × ScopeChain)
  | 0, _, _, _ => Option.none
  | _ + 1, [], acc, scopes => some (acc, scopes)
  | n + 1, (k, e) :: rest, acc, scopes =>
    match evalExpr nenv n e scopes with
    | Option.none => Option.none
    | some (v, s1) => evalDictItems nenv n rest (alistInsert acc k v) s1

/-- `Function::execute` (src/src/interpreter.rs): push a scope built from the
zipped parameter/argument pairs, execute the body, pop, and return the value
of a `Return` result (anything else gives `Value::None`). -/
def execFunction (nenv : NativeEnv) :
    Nat → Function → ScopeChain → List Value → Option (Value × ScopeChain)
  | 0, _, _, _ => Option.none
  | n + 1, f, scopes, args =>
    match execBlock nenv n f.stmts (scopes.push (Scope.from_args (f.args.zip args))) with
    | Option.none => Option.none
    | some (res, s1) =>
      some (match res with | ExecResult.ret x => x | _ => Value.none, (s1.pop).2)

/-- `<Stmt as Executable>::exec` (src/src/interpreter.rs). -/
def execStmt (nenv : NativeEnv) : Nat → Stmt → ScopeChain → Option (ExecResult × ScopeChain)
  | 0, _, _ => Option.none
  | n + 1, stmt, scopes =>
    match stmt with
    | Stmt.breakStmt => some (ExecResult.breakResult, scopes)
    | Stmt.expr e =>
      match evalExpr nenv n e scopes with
      | Option.none => Option.none
      | some (_, s1) => some (ExecResult.none, s1)
    | Stmt.fnDef fnId argIds stmts =>
      some (ExecResult.none, scopes.insert_func fnId ⟨argIds, stmts⟩)
    | Stmt.ifStmt cond stmts =>
      match evalExpr nenv n cond scopes with
      | Option.none => Option.none
      | some (v, s1) =>
        match v with
        | Value.bool b =>
          if b then execBlock nenv n stmts s1 else some (ExecResult.none, s1)
        | _ => some (ExecResult.none, s1)
    | Stmt.ifElse cond stmts elseStmts =>
      match evalExpr nenv n cond scopes with
      | Option.none => Option.none
      | some (v, s1) =>
        match v with
        | Value.bool b =>
          if b then execBlock nenv n stmts s1 else execBlock nenv n elseStmts s1
        | _ => execBlock nenv n elseStmts s1
    | Stmt.letStmt x e =>
      match evalExpr nenv n e scopes with
      | Option.none => Option.none
      | some (v, s1) => some (ExecResult.none, s1.insert_var x v)
    | Stmt.listItemAssignment x idxExpr valExpr =>
      match evalExpr nenv n idxExpr scopes with
      | Option.none => Option.none
      | some (idxV, s1) =>
        match evalExpr nenv n valExpr s1 with
        | Option.none => Option.none
        | some (valV, s2) =>
          match idxV with
          | Value.int i => some (ExecResult.none, s2.insert_list_item x (usizeOfInt i) valV)
          | Value.str s => some (ExecResult.none, s2.insert_dict_item x s valV)
          | _ => some (ExecResult.none, s2)
    | Stmt.loop stmts =>
      match execBlock nenv n stmts scopes with
      | Option.none => Option.none
      | some (res, s1) =>
        match res with
        | ExecResult.breakResult => some (ExecResult.none, s1)
        | _ => execStmt nenv n (Stmt.loop stmts) s1
    | Stmt.ret e =>
      match evalExpr nenv n e scopes with
      | Option.none => Option.none
      | some (v, s1) => some (ExecResult.ret v, s1)

/-- `<StmtBlock as Executable>::exec` (src/src/interpreter.rs): execute the
statements in turn, stopping early on `Return` or `Break` (any other result,
including `Error`, continues). -/
def execBlock (nenv : NativeEnv) : Nat → StmtBlock → ScopeChain → Option (ExecResult × ScopeChain)
  | 0, _, _ => Option.none
  | _ + 1, [], scopes => some (ExecResult.none, scopes)
  | n + 1, stmt :: rest, scopes =>
    match execStmt nenv n stmt scopes with
    | Option.none => Option.none
    | some (res, s1) =>
      match res with
      | ExecResult.ret v => some (ExecResult.ret v, s1)
      | ExecResult.breakResult => some (ExecResult.breakResult, s1)
      | _ => execBlock nenv n rest s1

end

/-- `InterpretResult` (src/src/lib.rs). -/
structure InterpretResult where
  exec_result : ExecResult
  scope_chain : ScopeChain

/-- `interpret` (src/src/lib.rs): build a chain with `global_scope` as its
single root frame; parse; on failure produce
`Error("Unable to parse program source")` with the chain as built; on success
execute the parsed block against the chain.  The generated LALRPOP parser
(src/src/p64lang.rs) is abstracted as the `parse` argument, since `interpret`
only inspects success or failure of the parse. -/
def interpret (nenv : NativeEnv) (parse : String → Option StmtBlock) (fuel : Nat)
    (src : String) (global_scope : Scope) : Option InterpretResult :=
  let scopes := ScopeChain.from_scope global_scope
  match parse src with
  | some block =>
    match execBlock nenv fuel block scopes with
    | Option.none => Option.none
    | some (res, s1) => some ⟨res, s1⟩
  | Option.none => some ⟨ExecResult.error "Unable to parse program source", scopes⟩

/-- `v` is an `Int` value. -/
def Value.is_int : Value → Bool
  | Value.int _ => true
  | _ => false

/-- `v` is a `Real` value. -/
def Value.is_real : Value → Bool
  | Value.real _ => true
  | _ => false

/-- `v` is numeric (`Int` or `Real`). -/
def Value.is_numeric (v : Value) : Bool := v.is_int || v.is_real

/-- `v` is a `Bool` value. -/
def Value.is_bool : Value → Bool
  | Value.bool _ => true
  | _ => false

/-- `v` is a `Str` value. -/
def Value.is_str : Value → Bool
  | Value.str _ => true
  | _ => false

/-- A trivial native environment for concrete examples: every native returns
`Value::None` and leaves the chain alone (like the runtime module's `print` /
`println`). -/
def defaultNativeEnv : NativeEnv := fun _ c _ => (Value.none, c)

/-- Fixture: the script function `fn f(x) { return x + 1; }`. -/
def incFunction : Function :=
  ⟨["x"], [Stmt.ret (Expr.binOp (Expr.id "x") Opcode.add (Expr.int 1))]⟩

/-- Fixture: a root chain in which `f` names `incFunction` and `g` names the
native function with handle 0. -/
def fixtureChain : ScopeChain :=
  ScopeChain.from_scope ⟨[("f", incFunction)], [("g", 0)], []⟩

/-- Fixture: the statement `loop { return 1; }` — a loop whose body always
produces `ExecResult::Return`. -/
def loopReturnStmt : Stmt := Stmt.loop [Stmt.ret (Expr.int 1)]

/-- Fixture: a parameterless function whose body is a bare `break` (no
enclosing loop inside the body). -/
def breakFunction : Function := ⟨[], [Stmt.breakStmt]⟩

/-- Fixture: a root scope binding `a` to an Int, `b` to a one-element List
and `d` to a one-entry Dict. -/
def softScope : Scope :=
  ⟨[], [], [("a", Value.int 5), ("b", Value.list [Value.int 7]),
            ("d", Value.dict [("k", Value.int 1)])]⟩

/-- Fixture: the chain with `softScope` as root. -/
def softChain : ScopeChain := ScopeChain.from_scope softScope

/-- C2: whenever parsing fails, `interpret` returns
`ExecResult::Error("Unable to parse program source")` (exact message), and the
returned scope chain is exactly the freshly built chain whose single root
frame is the scope the host supplied — no statement was executed. -/
theorem interpret_parse_failure (nenv : NativeEnv) (parse : String → Option StmtBlock)
    (fuel : Nat) (src : String) (scope : Scope) (h : parse src = Option.none) :
    interpret nenv parse fuel src scope =
      some ⟨ExecResult.error "Unable to parse program source",
            ScopeChain.from_scope scope⟩ ∧
    (ScopeChain.from_scope scope).scopes = [scope] := by
  refine ⟨?_, rfl⟩
  simp [interpret, h]

/-- Witness for C2 at the concrete unparsable source of the repository test
(`"!&*"`), with the always-failing parse function. -/
theorem interpret_parse_failure_witness :
    (fun _ : String => (Option.none : Option StmtBlock)) "!&*" = Option.none ∧
    (interpret defaultNativeEnv (fun _ => Option.none) 5 "!&*" Scope.new =
      some ⟨ExecResult.error "Unable to parse program source",
            ScopeChain.from_scope Scope.new⟩ ∧
     (ScopeChain.from_scope Scope.new).scopes = [Scope.new]) :=
  ⟨rfl, interpret_parse_failure defaultNativeEnv (fun _ => Option.none) 5 "!&*" Scope.new rfl⟩

/-- C3: evaluating unary `!` gives `Bool(!b)` on `Bool(b)`, `Bool(true)` on
`None`, and `Bool(false)` on every other `Value` variant (`Int`, `Real`,
`Str`, `List`, `Dict`). -/
theorem eval_unary_not_cases :
    (∀ b, Opcode.eval_unary Opcode.not (Value.bool b) = Value.bool (!b)) ∧
    Opcode.eval_unary Opcode.not Value.none = Value.bool true ∧
    (∀ n, Opcode.eval_unary Opcode.not (Value.int n) = Value.bool false) ∧
    (∀ x, Opcode.eval_unary Opcode.not (Value.real x) = Value.bool false) ∧
    (∀ s, Opcode.eval_unary Opcode.not (Value.str s) = Value.bool false) ∧
    (∀ xs, Opcode.eval_unary Opcode.not (Value.list xs) = Value.bool false) ∧
    (∀ m, Opcode.eval_unary Opcode.not (Value.dict m) = Value.bool false) :=
  ⟨fun _ => rfl, rfl, fun _ => rfl, fun _ => rfl, fun _ => rfl, fun _ => rfl, fun _ => rfl⟩

/-- C4 counterexample: `Mod` on the Int operands `(1, 0)` does not yield an
Int — the source computes `1 % 0` on `isize`, which panics (remainder with a
zero divisor), so evaluation produces no value at all. -/
theorem mod_by_zero_panics :
    Opcode.eval Opcode.mod (Value.int 1) (Value.int 0) = Option.none ∧
    ¬ ∃ k, Opcode.eval Opcode.mod (Value.int 1) (Value.int 0) = some (Value.int k) := by
  refine ⟨rfl, ?_⟩
  rintro ⟨k, hk⟩
  simp [Opcode.eval, Opcode.calc_i] at hk

/-- C4 (amended): `Add`/`Sub`/`Mul` give an Int on two Ints, a Real when both
operands are numeric and at least one is a Real, and `Value::None` otherwise;
`Div` gives a Real exactly when both operands are numeric (two Ints are both
widened to doubles before dividing) and `Value::None` otherwise; `Mod` gives
an Int (truncated-division remainder) when both operands are Int, the
divisor is nonzero and the pair is not the overflowing
`(isize::MIN, -1)`; it aborts (unconditional Rust panic, modelled
`Option.none`) on a zero divisor and at `isize::MIN % -1`, and gives
`Value::None` for every non-Int combination. -/
theorem arithmetic_result_types :
    (∀ op, (op = Opcode.add ∨ op = Opcode.sub ∨ op = Opcode.mul) → ∀ l r : Value,
       ((l.is_int ∧ r.is_int) → ∃ k, Opcode.eval op l r = some (Value.int k)) ∧
       ((l.is_numeric ∧ r.is_numeric ∧ (l.is_real ∨ r.is_real)) →
          ∃ q, Opcode.eval op l r = some (Value.real q)) ∧
       (¬(l.is_numeric ∧ r.is_numeric) → Opcode.eval op l r = some Value.none)) ∧
    (∀ l r : Value,
       ((l.is_numeric ∧ r.is_numeric) ↔ ∃ q, Opcode.eval Opcode.div l r = some (Value.real q)) ∧
       (¬(l.is_numeric ∧ r.is_numeric) → Opcode.eval Opcode.div l r = some Value.none)) ∧
    (∀ a b : Int, Opcode.eval Opcode.div (Value.int a) (Value.int b) =
       some (Value.real ((a : ℚ) / (b : ℚ)))) ∧
    (∀ a b : Int, b ≠ 0 → ¬(a = isizeMin ∧ b = -1) →
       Opcode.eval Opcode.mod (Value.int a) (Value.int b) = some (Value.int (Int.tmod a b))) ∧
    (∀ a : Int, Opcode.eval Opcode.mod (Value.int a) (Value.int 0) = Option.none) ∧
    Opcode.eval Opcode.mod (Value.int isizeMin) (Value.int (-1)) = Option.none ∧
    (∀ l r : Value, ¬(l.is_int ∧ r.is_int) →
       Opcode.eval Opcode.mod l r = some Value.none) := by
  refine ⟨?_, ?_, ?_, ?_, ?_, ?_, ?_⟩
  · rintro op (rfl | rfl | rfl) l r <;> cases l <;> cases r <;>
      simp [Opcode.eval, Opcode.calc_i, Opcode.calc_f,
        Value.is_int, Value.is_real, Value.is_numeric]
  · intro l r
    cases l <;> cases r <;>
      simp [Opcode.eval, Opcode.calc_f, Value.is_int, Value.is_real, Value.is_numeric]
  · intro a b; rfl
  · intro a b hb hm; simp [Opcode.eval, Opcode.calc_i, hb, hm]
  · intro a; simp [Opcode.eval, Opcode.calc_i]
  · simp [Opcode.eval, Opcode.calc_i]
  · intro l r h
    cases l <;> cases r <;>
      simp_all [Opcode.eval, Value.is_int]

/-- Witness for the amended C4 at concrete operands, one per case (the `Mod`
cases reuse the repository test inputs `16 % 12` etc.). -/
theorem arithmetic_result_types_witness :
    (∃ k, Opcode.eval Opcode.add (Value.int 1) (Value.int 2) = some (Value.int k)) ∧
    (∃ q, Opcode.eval Opcode.sub (Value.int 1) (Value.real 2) = some (Value.real q)) ∧
    Opcode.eval Opcode.mul (Value.str "a") (Value.int 1) = some Value.none ∧
    (∃ q, Opcode.eval Opcode.div (Value.int 6) (Value.int 2) = some (Value.real q)) ∧
    Opcode.eval Opcode.div (Value.bool true) (Value.int 1) = some Value.none ∧
    Opcode.eval Opcode.mod (Value.int 16) (Value.int 12) = some (Value.int (Int.tmod 16 12)) ∧
    Opcode.eval Opcode.mod (Value.int 5) (Value.int 0) = Option.none ∧
    Opcode.eval Opcode.mod (Value.int isizeMin) (Value.int (-1)) = Option.none ∧
    Opcode.eval Opcode.mod (Value.int 16) (Value.real 12) = some Value.none := by
  have h := arithmetic_result_types
  refine ⟨?_, ?_, ?_, ?_, ?_, ?_, ?_, ?_, ?_⟩
  · exact (h.1 Opcode.add (Or.inl rfl) (Value.int 1) (Value.int 2)).1 ⟨rfl, rfl⟩
  · exact (h.1 Opcode.sub (Or.inr (Or.inl rfl)) (Value.int 1) (Value.real 2)).2.1
      ⟨rfl, rfl, Or.inr rfl⟩
  · exact (h.1 Opcode.mul (Or.inr (Or.inr rfl)) (Value.str "a") (Value.int 1)).2.2
      (by simp [Value.is_numeric, Value.is_int, Value.is_real])
  · exact ((h.2.1 (Value.int 6) (Value.int 2)).1).mp ⟨rfl, rfl⟩
  · exact (h.2.1 (Value.bool true) (Value.int 1)).2
      (by simp [Value.is_numeric, Value.is_int, Value.is_real])
  · exact h.2.2.2.1 16 12 (by decide) (by decide)
  · exact h.2.2.2.2.1 5
  · exact h.2.2.2.2.2.1
  · exact h.2.2.2.2.2.2 (Value.int 16) (Value.real 12) (by simp [Value.is_int])

/-- C6: `If(cond, body)` executes its body exactly when the condition
evaluates to `Bool(true)` and otherwise yields `ExecResult::None` (non-Bool
conditions count as false); `IfElse(cond, then, else)` executes the then-block
exactly when the condition evaluates to `Bool(true)` and the else-block for
every other value, `Bool(false)` and non-Bool values alike. -/
theorem if_condition_semantics (nenv : NativeEnv) (n : Nat) (cond : Expr)
    (body elseBody : StmtBlock) (s s1 : ScopeChain) (v : Value)
    (h : evalExpr nenv n cond s = some (v, s1)) :
    (v = Value.bool true →
       execStmt nenv (n + 1) (Stmt.ifStmt cond body) s = execBlock nenv n body s1 ∧
       execStmt nenv (n + 1) (Stmt.ifElse cond body elseBody) s = execBlock nenv n body s1) ∧
    (v ≠ Value.bool true →
       execStmt nenv (n + 1) (Stmt.ifStmt cond body) s = some (ExecResult.none, s1) ∧
       execStmt nenv (n + 1) (Stmt.ifElse cond body elseBody) s =
         execBlock nenv n elseBody s1) := by
  constructor
  · rintro rfl
    exact ⟨by simp [execStmt, h], by simp [execStmt, h]⟩
  · intro hv
    cases v with
    | bool b =>
      cases b with
      | false => exact ⟨by simp [execStmt, h], by simp [execStmt, h]⟩
      | true => exact absurd rfl hv
    | none => exact ⟨by simp [execStmt, h], by simp [execStmt, h]⟩
    | int k => exact ⟨by simp [execStmt, h], by simp [execStmt, h]⟩
    | real x => exact ⟨by simp [execStmt, h], by simp [execStmt, h]⟩
    | str t => exact ⟨by simp [execStmt, h], by simp [execStmt, h]⟩
    | list xs => exact ⟨by simp [execStmt, h], by simp [execStmt, h]⟩
    | dict m => exact ⟨by simp [execStmt, h], by simp [execStmt, h]⟩

/-- Witness for C6: a `Bool(true)` condition runs the body, a non-Bool
condition (`Int(7)`) yields `None` for `If` and runs the else-block for
`IfElse`. -/
theorem if_condition_semantics_witness :
    execStmt defaultNativeEnv 2 (Stmt.ifStmt (Expr.bool true) [Stmt.breakStmt])
        (ScopeChain.from_scope Scope.new) =
      execBlock defaultNativeEnv 1 [Stmt.breakStmt] (ScopeChain.from_scope Scope.new) ∧
    execStmt defaultNativeEnv 2 (Stmt.ifStmt (Expr.int 7) [Stmt.breakStmt])
        (ScopeChain.from_scope Scope.new) =
      some (ExecResult.none, ScopeChain.from_scope Scope.new) ∧
    execStmt defaultNativeEnv 2 (Stmt.ifElse (Expr.int 7) [Stmt.breakStmt] [])
        (ScopeChain.from_scope Scope.new) =
      execBlock defaultNativeEnv 1 [] (ScopeChain.from_scope Scope.new) := by
  refine ⟨?_, ?_, ?_⟩
  · exact ((if_condition_semantics defaultNativeEnv 1 (Expr.bool true) [Stmt.breakStmt] []
      (ScopeChain.from_scope Scope.new) (ScopeChain.from_scope Scope.new)
      (Value.bool true) rfl).1 rfl).1
  · exact ((if_condition_semantics defaultNativeEnv 1 (Expr.int 7) [Stmt.breakStmt] []
      (ScopeChain.from_scope Scope.new) (ScopeChain.from_scope Scope.new)
      (Value.int 7) rfl).2 (by simp)).1
  · exact ((if_condition_semantics defaultNativeEnv 1 (Expr.int 7) [Stmt.breakStmt] []
      (ScopeChain.from_scope Scope.new) (ScopeChain.from_scope Scope.new)
      (Value.int 7) rfl).2 (by simp)).2

/-- C5: a `FuncCall` first evaluates all argument expressions (the hypothesis
fixes their left-to-right evaluation, producing the chain `s1` in which the
lookups then happen); if a script function of that name resolves it is
invoked, else if a native function resolves its `execute` is called with the
current chain and the argument values, and if neither resolves the call
evaluates to `Value::None`. -/
theorem funcCall_dispatch (nenv : NativeEnv) (n : Nat) (funcId : Ident)
    (args : List Expr) (s s1 : ScopeChain) (vals : List Value)
    (h : evalExprList nenv n args s = some (vals, s1)) :
    (∀ f, s1.resolve_func funcId = some f →
       evalExpr nenv (n + 1) (Expr.funcCall funcId args) s = execFunction nenv n f s1 vals) ∧
    (∀ nf, s1.resolve_func funcId = Option.none →
       s1.resolve_native_func funcId = some nf →
       evalExpr nenv (n + 1) (Expr.funcCall funcId args) s = some (nenv nf s1 vals)) ∧
    (s1.resolve_func funcId = Option.none →
       s1.resolve_native_func funcId = Option.none →
       evalExpr nenv (n + 1) (Expr.funcCall funcId args) s = some (Value.none, s1)) := by
  refine ⟨?_, ?_, ?_⟩
  · intro f hf; simp [evalExpr, h, hf]
  · intro nf hf hnf; simp [evalExpr, h, hf, hnf]
  · intro hf hnf; simp [evalExpr, h, hf, hnf]

/-- Witness for C5 on `fixtureChain`: `f` resolves to the script function,
`g` only to the native function, `nosuch` to neither. -/
theorem funcCall_dispatch_witness :
    evalExpr defaultNativeEnv 3 (Expr.funcCall "f" [Expr.int 41]) fixtureChain =
      execFunction defaultNativeEnv 2 incFunction fixtureChain [Value.int 41] ∧
    evalExpr defaultNativeEnv 3 (Expr.funcCall "g" [Expr.int 41]) fixtureChain =
      some (defaultNativeEnv 0 fixtureChain [Value.int 41]) ∧
    evalExpr defaultNativeEnv 3 (Expr.funcCall "nosuch" [Expr.int 41]) fixtureChain =
      some (Value.none, fixtureChain) :=
  ⟨(funcCall_dispatch defaultNativeEnv 2 "f" [Expr.int 41] fixtureChain fixtureChain
      [Value.int 41] rfl).1 incFunction rfl,
   (funcCall_dispatch defaultNativeEnv 2 "g" [Expr.int 41] fixtureChain fixtureChain
      [Value.int 41] rfl).2.1 0 rfl rfl,
   (funcCall_dispatch defaultNativeEnv 2 "nosuch" [Expr.int 41] fixtureChain fixtureChain
      [Value.int 41] rfl).2.2 rfl rfl⟩

/-- Helper for C1: evaluating the literal `1` either runs out of fuel or
yields `Int(1)` with the chain unchanged. -/
lemma evalInt1_cases (nenv : NativeEnv) (k : Nat) (c : ScopeChain) :
    evalExpr nenv k (Expr.int 1) c = Option.none ∨
    evalExpr nenv k (Expr.int 1) c = some (Value.int 1, c) := by
  cases k with
  | zero => exact Or.inl rfl
  | succ m => exact Or.inr rfl

/-- Helper for C1: executing `return 1` either runs out of fuel or yields
`Return(Int(1))` with the chain unchanged. -/
lemma execRet1_cases (nenv : NativeEnv) (m : Nat) (c : ScopeChain) :
    execStmt nenv m (Stmt.ret (Expr.int 1)) c = Option.none ∨
    execStmt nenv m (Stmt.ret (Expr.int 1)) c = some (ExecResult.ret (Value.int 1), c) := by
  cases m with
  | zero => exact Or.inl rfl
  | succ k =>
    rcases evalInt1_cases nenv k c with h | h
    · left; simp [execStmt, h]
    · right; simp [execStmt, h]

/-- Helper for C1: the block `[return 1]` either runs out of fuel or yields
`Return(Int(1))` with the chain unchanged. -/
lemma blockRet1_cases (nenv : NativeEnv) (n : Nat) (c : ScopeChain) :
    execBlock nenv n [Stmt.ret (Expr.int 1)] c = Option.none ∨
    execBlock nenv n [Stmt.ret (Expr.int 1)] c = some (ExecResult.ret (Value.int 1), c) := by
  cases n with
  | zero => exact Or.inl rfl
  | succ m =>
    rcases execRet1_cases nenv m c with h | h
    · left; simp [execBlock, h]
    · right; simp [execBlock, h]

/-- C1: the `Stmt::Loop` arm only stops on `ExecResult::Break`, so a body
that yields `Return(v)` is NOT propagated — the loop re-executes the body
forever.  Concretely: the body `[return 1]` always produces
`Return(Int(1))` (first conjunct, at every sufficient fuel), yet executing
a loop with body `return 1;` produces no result at any fuel whatsoever (second
conjunct) instead of the claimed `Return(Int(1))`. -/
theorem loop_swallows_return (nenv : NativeEnv) :
    (∀ (n : Nat) (c : ScopeChain),
       execBlock nenv (n + 3) [Stmt.ret (Expr.int 1)] c =
         some (ExecResult.ret (Value.int 1), c)) ∧
    (∀ (n : Nat) (c : ScopeChain), execStmt nenv n loopReturnStmt c = Option.none) := by
  constructor
  · intro n c; rfl
  · intro n
    induction n with
    | zero => intro c; rfl
    | succ m ih =>
      intro c
      rcases blockRet1_cases nenv m c with h | h
      · simp [loopReturnStmt, execStmt, h]
      · simp only [loopReturnStmt, execStmt, h]
        exact ih c

/-- C9: runtime softening — an unresolved identifier evaluates to
`Value::None`; binary operations outside their defined type tables produce
`Value::None` (arithmetic on non-numeric operands, `Mod` on non-Int operands,
logical connectives on non-Bool operands, comparisons outside numeric/numeric
and Str/Str); indexed access softens to `Value::None` in every failure case
of both index kinds — an Int index on a non-List, an Int index out of range,
a Str index on a non-Dict, a Str index missing from the Dict, an index value
that is neither Int nor Str, and an unresolved name; and an expression
statement that evaluates (to anything, including `None`) lets the enclosing
block continue with the following statements. -/
theorem runtime_softening (nenv : NativeEnv) (n : Nat) :
    (∀ x c, ScopeChain.resolve_var c x = Option.none →
       evalExpr nenv (n + 1) (Expr.id x) c = some (Value.none, c)) ∧
    (∀ op (l r : Value),
       (op = Opcode.add ∨ op = Opcode.sub ∨ op = Opcode.mul ∨ op = Opcode.div) →
       ¬(l.is_numeric ∧ r.is_numeric) → Opcode.eval op l r = some Value.none) ∧
    (∀ l r : Value, ¬(l.is_int ∧ r.is_int) → Opcode.eval Opcode.mod l r = some Value.none) ∧
    (∀ op (l r : Value),
       (op = Opcode.logicalAnd ∨ op = Opcode.logicalOr ∨ op = Opcode.logicalXor) →
       ¬(l.is_bool ∧ r.is_bool) → Opcode.eval op l r = some Value.none) ∧
    (∀ op (l r : Value),
       (op = Opcode.equal ∨ op = Opcode.notEqual ∨ op = Opcode.lessThan ∨
        op = Opcode.greaterThan ∨ op = Opcode.lessThanOrEqual ∨
        op = Opcode.greaterThanOrEqual) →
       ¬((l.is_numeric ∧ r.is_numeric) ∨ (l.is_str ∧ r.is_str)) →
       Opcode.eval op l r = some Value.none) ∧
    (∀ x idxExpr c i s1 val, evalExpr nenv n idxExpr c = some (Value.int i, s1) →
       s1.resolve_var x = some val → (∀ lst, val ≠ Value.list lst) →
       evalExpr nenv (n + 1) (Expr.listElement x idxExpr) c = some (Value.none, s1)) ∧
    (∀ x idxExpr c i s1 lst, evalExpr nenv n idxExpr c = some (Value.int i, s1) →
       s1.resolve_var x = some (Value.list lst) → lst.length ≤ usizeOfInt i →
       evalExpr nenv (n + 1) (Expr.listElement x idxExpr) c = some (Value.none, s1)) ∧
    (∀ x idxExpr c i s1, evalExpr nenv n idxExpr c = some (Value.int i, s1) →
       s1.resolve_var x = Option.none →
       evalExpr nenv (n + 1) (Expr.listElement x idxExpr) c = some (Value.none, s1)) ∧
    (∀ x idxExpr c st s1 val, evalExpr nenv n idxExpr c = some (Value.str st, s1) →
       s1.resolve_var x = some val → (∀ d, val ≠ Value.dict d) →
       evalExpr nenv (n + 1) (Expr.listElement x idxExpr) c = some (Value.none, s1)) ∧
    (∀ x idxExpr c st s1 d, evalExpr nenv n idxExpr c = some (Value.str st, s1) →
       s1.resolve_var x = some (Value.dict d) → alistGet d st = Option.none →
       evalExpr nenv (n + 1) (Expr.listElement x idxExpr) c = some (Value.none, s1)) ∧
    (∀ x idxExpr c v s1, evalExpr nenv n idxExpr c = some (v, s1) →
       ¬ v.is_int → ¬ v.is_str →
       evalExpr nenv (n + 1) (Expr.listElement x idxExpr) c = some (Value.none, s1)) ∧
    (∀ e c v c' rest, evalExpr nenv n e c = some (v, c') →
       execBlock nenv (n + 1 + 1) (Stmt.expr e :: rest) c = execBlock nenv (n + 1) rest c') := by
  refine ⟨?_, ?_, ?_, ?_, ?_, ?_, ?_, ?_, ?_, ?_, ?_, ?_⟩
  · intro x c h; simp [evalExpr, h]
  · rintro op l r (rfl | rfl | rfl | rfl) h <;> cases l <;> cases r <;>
      simp_all [Opcode.eval, Value.is_numeric, Value.is_int, Value.is_real]
  · intro l r h
    cases l <;> cases r <;> simp_all [Opcode.eval, Value.is_int]
  · rintro op l r (rfl | rfl | rfl) h <;> cases l <;> cases r <;>
      simp_all [Opcode.eval, Opcode.logical, Value.is_bool]
  · rintro op l r (rfl | rfl | rfl | rfl | rfl | rfl) h <;> cases l <;> cases r <;>
      simp_all [Opcode.eval, Opcode.logical, Value.is_numeric, Value.is_int,
        Value.is_real, Value.is_str]
  · intro x idxExpr c i s1 val h1 h2 h3
    cases val with
    | list lst => exact absurd rfl (h3 lst)
    | none => simp [evalExpr, h1, h2]
    | int k => simp [evalExpr, h1, h2]
    | real q => simp [evalExpr, h1, h2]
    | str t => simp [evalExpr, h1, h2]
    | bool b => simp [evalExpr, h1, h2]
    | dict m => simp [evalExpr, h1, h2]
  · intro x idxExpr c i s1 lst h1 h2 hlen
    simp [evalExpr, h1, h2, List.getElem?_eq_none hlen]
  · intro x idxExpr c i s1 h1 h2
    simp [evalExpr, h1, h2]
  · intro x idxExpr c st s1 val h1 h2 h3
    cases val with
    | dict d => exact absurd rfl (h3 d)
    | none => simp [evalExpr, h1, h2]
    | int k => simp [evalExpr, h1, h2]
    | real q => simp [evalExpr, h1, h2]
    | str t => simp [evalExpr, h1, h2]
    | bool b => simp [evalExpr, h1, h2]
    | list lst => simp [evalExpr, h1, h2]
  · intro x idxExpr c st s1 d h1 h2 h3
    simp [evalExpr, h1, h2, h3]
  · intro x idxExpr c v s1 h1 h2 h3
    cases hx : s1.resolve_var x with
    | none => simp [evalExpr, h1, hx]
    | some val =>
      cases v with
      | int k => simp [Value.is_int] at h2
      | str t => simp [Value.is_str] at h3
      | none => simp [evalExpr, h1, hx]
      | real q => simp [evalExpr, h1, hx]
      | bool b => simp [evalExpr, h1, hx]
      | list lst => simp [evalExpr, h1, hx]
      | dict dd => simp [evalExpr, h1, hx]
  · intro e c v c' rest h
    simp [execBlock, execStmt, h]

/-- Witness for C9 at concrete inputs on `softChain`. -/
theorem runtime_softening_witness :
    evalExpr defaultNativeEnv 2 (Expr.id "zzz") softChain = some (Value.none, softChain) ∧
    Opcode.eval Opcode.add (Value.str "s") Value.none = some Value.none ∧
    Opcode.eval Opcode.mod (Value.real 1) (Value.int 2) = some Value.none ∧
    Opcode.eval Opcode.logicalAnd (Value.bool true) (Value.int 1) = some Value.none ∧
    Opcode.eval Opcode.equal (Value.int 1) (Value.bool true) = some Value.none ∧
    evalExpr defaultNativeEnv 2 (Expr.listElement "a" (Expr.int 0)) softChain =
      some (Value.none, softChain) ∧
    evalExpr defaultNativeEnv 2 (Expr.listElement "b" (Expr.int 1)) softChain =
      some (Value.none, softChain) ∧
    evalExpr defaultNativeEnv 2 (Expr.listElement "zzz" (Expr.int 0)) softChain =
      some (Value.none, softChain) ∧
    evalExpr defaultNativeEnv 2 (Expr.listElement "b" (Expr.str "k")) softChain =
      some (Value.none, softChain) ∧
    evalExpr defaultNativeEnv 2 (Expr.listElement "d" (Expr.str "nokey")) softChain =
      some (Value.none, softChain) ∧
    evalExpr defaultNativeEnv 2 (Expr.listElement "a" (Expr.bool true)) softChain =
      some (Value.none, softChain) ∧
    execBlock defaultNativeEnv 3 [Stmt.expr (Expr.id "zzz")] softChain =
      execBlock defaultNativeEnv 2 [] softChain := by
  obtain ⟨h1, h2, h3, h4, h5, h6, h7, h8, h9, h10, h11, h12⟩ :=
    runtime_softening defaultNativeEnv 1
  refine ⟨?_, ?_, ?_, ?_, ?_, ?_, ?_, ?_, ?_, ?_, ?_, ?_⟩
  · exact h1 "zzz" softChain rfl
  · exact h2 Opcode.add (Value.str "s") Value.none (Or.inl rfl)
      (by simp [Value.is_numeric, Value.is_int, Value.is_real])
  · exact h3 (Value.real 1) (Value.int 2) (by simp [Value.is_int])
  · exact h4 Opcode.logicalAnd (Value.bool true) (Value.int 1) (Or.inl rfl)
      (by simp [Value.is_bool])
  · exact h5 Opcode.equal (Value.int 1) (Value.bool true) (Or.inl rfl)
      (by simp [Value.is_numeric, Value.is_int, Value.is_real, Value.is_str])
  · exact h6 "a" (Expr.int 0) softChain 0 softChain (Value.int 5) rfl rfl
      (fun lst h => Value.noConfusion h)
  · exact h7 "b" (Expr.int 1) softChain 1 softChain [Value.int 7] rfl rfl (by decide)
  · exact h8 "zzz" (Expr.int 0) softChain 0 softChain rfl rfl
  · exact h9 "b" (Expr.str "k") softChain "k" softChain (Value.list [Value.int 7]) rfl rfl
      (fun d h => Value.noConfusion h)
  · exact h10 "d" (Expr.str "nokey") softChain "nokey" softChain [("k", Value.int 1)] rfl rfl rfl
  · exact h11 "a" (Expr.bool true) softChain (Value.bool true) softChain rfl
      (by simp [Value.is_int]) (by simp [Value.is_str])
  · exact h12 (Expr.id "zzz") softChain Value.none softChain [] rfl

/-- Helper: `insert_func` preserves the number of frames. -/
lemma insert_func_len (c : ScopeChain) (k : Ident) (f : Function) :
    (c.insert_func k f).scopes.length = c.scopes.length := by
  rcases c with ⟨_ | ⟨s, rest⟩⟩ <;> rfl

/-- Helper: `insert_var` preserves the number of frames. -/
lemma insert_var_len (c : ScopeChain) (k : Ident) (v : Value) :
    (c.insert_var k v).scopes.length = c.scopes.length := by
  rcases c with ⟨_ | ⟨s, rest⟩⟩ <;> rfl

/-- Helper: the `insert_list_item` walk preserves the number of frames. -/
lemma insertListItemScopes_len (key : Ident) (idx : Nat) (val : Value) :
    ∀ ss : List Scope, (insertListItemScopes ss key idx val).length = ss.length := by
  intro ss
  induction ss with
  | nil => rfl
  | cons s rest ih =>
    cases hv : alistGet s.vars key with
    | none => simp [insertListItemScopes, hv, ih]
    | some v => cases v <;> simp [insertListItemScopes, hv, ih]

/-- Helper: the `insert_dict_item` walk preserves the number of frames. -/
lemma insertDictItemScopes_len (key idx : Ident) (val : Value) :
    ∀ ss : List Scope, (insertDictItemScopes ss key idx val).length = ss.length := by
  intro ss
  induction ss with
  | nil => rfl
  | cons s rest ih =>
    cases hv : alistGet s.vars key with
    | none => simp [insertDictItemScopes, hv, ih]
    | some v => cases v <;> simp [insertDictItemScopes, hv, ih]

/-- Helper: `insert_list_item` preserves the number of frames. -/
lemma insert_list_item_len (c : ScopeChain) (key : Ident) (idx : Nat) (val : Value) :
    (c.insert_list_item key idx val).scopes.length = c.scopes.length :=
  insertListItemScopes_len key idx val c.scopes

/-- Helper: `insert_dict_item` preserves the number of frames. -/
lemma insert_dict_item_len (c : ScopeChain) (key idx : Ident) (val : Value) :
    (c.insert_dict_item key idx val).scopes.length = c.scopes.length :=
  insertDictItemScopes_len key idx val c.scopes

/-- Helper: `pop` removes exactly one frame (none if the chain is empty). -/
lemma pop_len (c : ScopeChain) :
    ((c.pop).2).scopes.length = c.scopes.length - 1 := by
  rcases c with ⟨_ | ⟨s, rest⟩⟩ <;> simp [ScopeChain.pop]

/-- Helper: matching chains from equal `some` results. -/
lemma some_pair_len {α : Type} (w v : α) (d c' : ScopeChain)
    (h : some (w, d) = some (v, c')) : c'.scopes.length = d.scopes.length := by
  simp only [Option.some.injEq, Prod.mk.injEq] at h
  rw [h.2]

/-- Frame-count invariant of the whole evaluator: provided every native
function preserves the number of frames (as the runtime natives `print` /
`println` do, leaving the chain untouched), every evaluation and execution
that produces a result preserves the number of frames on the chain. -/
theorem chain_length_invariant (nenv : NativeEnv)
    (hn : ∀ i ch vs, ((nenv i ch vs).2).scopes.length = ch.scopes.length) :
    ∀ n : Nat,
    (∀ e c v c', evalExpr nenv n e c = some (v, c') →
       c'.scopes.length = c.scopes.length) ∧
    (∀ es c vs c', evalExprList nenv n es c = some (vs, c') →
       c'.scopes.length = c.scopes.length) ∧
    (∀ items acc c m c', evalDictItems nenv n items acc c = some (m, c') →
       c'.scopes.length = c.scopes.length) ∧
    (∀ f c args v c', execFunction nenv n f c args = some (v, c') →
       c'.scopes.length = c.scopes.length) ∧
    (∀ s c r c', execStmt nenv n s c = some (r, c') →
       c'.scopes.length = c.scopes.length) ∧
    (∀ b c r c', execBlock nenv n b c = some (r, c') →
       c'.scopes.length = c.scopes.length) := by
  intro n
  induction n with
  | zero =>
    refine ⟨?_, ?_, ?_, ?_, ?_, ?_⟩
    · intro e c v c' h; simp [evalExpr] at h
    · intro es c vs c' h; simp [evalExprList] at h
    · intro items acc c m c' h; simp [evalDictItems] at h
    · intro f c args v c' h; simp [execFunction] at h
    · intro s c r c' h; simp [execStmt] at h
    · intro b c r c' h; simp [execBlock] at h
  | succ n ih =>
    obtain ⟨ihE, ihL, ihD, ihF, ihS, ihB⟩ := ih
    refine ⟨?_, ?_, ?_, ?_, ?_, ?_⟩
    · intro e c v c' h
      cases e with
      | binOp l op r =>
        simp only [evalExpr] at h
        cases hl : evalExpr nenv n l c with
        | none => simp [hl] at h
        | some p =>
          obtain ⟨lv, s1⟩ := p
          simp only [hl] at h
          cases hr : evalExpr nenv n r s1 with
          | none => simp [hr] at h
          | some q =>
            obtain ⟨rv, s2⟩ := q
            simp only [hr] at h
            cases ho : Opcode.eval op lv rv with
            | none => simp [ho] at h
            | some w =>
              simp only [ho, Option.some.injEq, Prod.mk.injEq] at h
              obtain ⟨-, rfl⟩ := h
              exact (ihE r s1 rv s2 hr).trans (ihE l c lv s1 hl)
      | bool b =>
        simp only [evalExpr, Option.some.injEq, Prod.mk.injEq] at h
        obtain ⟨-, rfl⟩ := h; rfl
      | int k =>
        simp only [evalExpr, Option.some.injEq, Prod.mk.injEq] at h
        obtain ⟨-, rfl⟩ := h; rfl
      | real x =>
        simp only [evalExpr, Option.some.injEq, Prod.mk.injEq] at h
        obtain ⟨-, rfl⟩ := h; rfl
      | str t =>
        simp only [evalExpr, Option.some.injEq, Prod.mk.injEq] at h
        obtain ⟨-, rfl⟩ := h; rfl
      | none =>
        simp only [evalExpr, Option.some.injEq, Prod.mk.injEq] at h
        obtain ⟨-, rfl⟩ := h; rfl
      | id x =>
        simp only [evalExpr] at h
        cases hx : c.resolve_var x with
        | none =>
          simp only [hx, Option.some.injEq, Prod.mk.injEq] at h
          obtain ⟨-, rfl⟩ := h; rfl
        | some w =>
          simp only [hx, Option.some.injEq, Prod.mk.injEq] at h
          obtain ⟨-, rfl⟩ := h; rfl
      | dict items =>
        simp only [evalExpr] at h
        cases hd : evalDictItems nenv n items [] c with
        | none => simp [hd] at h
        | some p =>
          obtain ⟨m, s1⟩ := p
          simp only [hd, Option.some.injEq, Prod.mk.injEq] at h
          obtain ⟨-, rfl⟩ := h
          exact ihD items [] c m s1 hd
      | list es =>
        simp only [evalExpr] at h
        cases hl : evalExprList nenv n es c with
        | none => simp [hl] at h
        | some p =>
          obtain ⟨vals, s1⟩ := p
          simp only [hl, Option.some.injEq, Prod.mk.injEq] at h
          obtain ⟨-, rfl⟩ := h
          exact ihL es c vals s1 hl
      | funcCall funcId args =>
        simp only [evalExpr] at h
        cases hl : evalExprList nenv n args c with
        | none => simp [hl] at h
        | some p =>
          obtain ⟨vals, s1⟩ := p
          simp only [hl] at h
          cases hf : s1.resolve_func funcId with
          | some f =>
            simp only [hf] at h
            exact (ihF f s1 vals v c' h).trans (ihL args c vals s1 hl)
          | none =>
            simp only [hf] at h
            cases hnf : s1.resolve_native_func funcId with
            | some nf =>
              simp only [hnf, Option.some.injEq] at h
              have h2 : (nenv nf s1 vals).2 = c' := congrArg Prod.snd h
              rw [← h2]
              exact (hn nf s1 vals).trans (ihL args c vals s1 hl)
            | none =>
              simp only [hnf, Option.some.injEq, Prod.mk.injEq] at h
              obtain ⟨-, rfl⟩ := h
              exact ihL args c vals s1 hl
      | listElement x idxExpr =>
        simp only [evalExpr] at h
        cases hl : evalExpr nenv n idxExpr c with
        | none => simp [hl] at h
        | some p =>
          obtain ⟨collIdx, s1⟩ := p
          simp only [hl] at h
          have hs : c'.scopes.length = s1.scopes.length := by
            cases hx : s1.resolve_var x with
            | none =>
              simp only [hx] at h
              exact some_pair_len _ _ _ _ h
            | some val =>
              simp only [hx] at h
              cases collIdx with
              | int i =>
                cases val with
                | list lst =>
                  cases hg : lst.get? (usizeOfInt i) with
                  | some w => simp only [hg] at h; exact some_pair_len _ _ _ _ h
                  | none => simp only [hg] at h; exact some_pair_len _ _ _ _ h
                | none => exact some_pair_len _ _ _ _ h
                | int k => exact some_pair_len _ _ _ _ h
                | real q => exact some_pair_len _ _ _ _ h
                | str t => exact some_pair_len _ _ _ _ h
                | bool bb => exact some_pair_len _ _ _ _ h
                | dict dd => exact some_pair_len _ _ _ _ h
              | str st =>
                cases val with
                | dict dd =>
                  cases hg : alistGet dd st with
                  | some w => simp only [hg] at h; exact some_pair_len _ _ _ _ h
                  | none => simp only [hg] at h; exact some_pair_len _ _ _ _ h
                | none => exact some_pair_len _ _ _ _ h
                | int k => exact some_pair_len _ _ _ _ h
                | real q => exact some_pair_len _ _ _ _ h
                | str t => exact some_pair_len _ _ _ _ h
                | bool bb => exact some_pair_len _ _ _ _ h
                | list ll => exact some_pair_len _ _ _ _ h
              | none => exact some_pair_len _ _ _ _ h
              | real q => exact some_pair_len _ _ _ _ h
              | bool bb => exact some_pair_len _ _ _ _ h
              | list ll => exact some_pair_len _ _ _ _ h
              | dict dd => exact some_pair_len _ _ _ _ h
          exact hs.trans (ihE idxExpr c collIdx s1 hl)
      | unaryOp op x =>
        simp only [evalExpr] at h
        cases hl : evalExpr nenv n x c with
        | none => simp [hl] at h
        | some p =>
          obtain ⟨w, s1⟩ := p
          simp only [hl, Option.some.injEq, Prod.mk.injEq] at h
          obtain ⟨-, rfl⟩ := h
          exact ihE x c w s1 hl
    · intro es c vs c' h
      cases es with
      | nil =>
        simp only [evalExprList, Option.some.injEq, Prod.mk.injEq] at h
        obtain ⟨-, rfl⟩ := h; rfl
      | cons e rest =>
        simp only [evalExprList] at h
        cases he : evalExpr nenv n e c with
        | none => simp [he] at h
        | some p =>
          obtain ⟨v1, s1⟩ := p
          simp only [he] at h
          cases hrest : evalExprList nenv n rest s1 with
          | none => simp [hrest] at h
          | some q =>
            obtain ⟨vs2, s2⟩ := q
            simp only [hrest, Option.some.injEq, Prod.mk.injEq] at h
            obtain ⟨-, rfl⟩ := h
            exact (ihL rest s1 vs2 s2 hrest).trans (ihE e c v1 s1 he)
    · intro items acc c m c' h
      cases items with
      | nil =>
        simp only [evalDictItems, Option.some.injEq, Prod.mk.injEq] at h
        obtain ⟨-, rfl⟩ := h; rfl
      | cons kv rest =>
        obtain ⟨k, e⟩ := kv
        simp only [evalDictItems] at h
        cases he : evalExpr nenv n e c with
        | none => simp [he] at h
        | some p =>
          obtain ⟨v1, s1⟩ := p
          simp only [he] at h
          exact (ihD rest (alistInsert acc k v1) s1 m c' h).trans (ihE e c v1 s1 he)
    · intro f c args v c' h
      simp only [execFunction] at h
      cases hb : execBlock nenv n f.stmts (c.push (Scope.from_args (f.args.zip args))) with
      | none => simp [hb] at h
      | some p =>
        obtain ⟨res, s1⟩ := p
        simp only [hb, Option.some.injEq, Prod.mk.injEq] at h
        obtain ⟨-, rfl⟩ := h
        have h1 : s1.scopes.length = c.scopes.length + 1 :=
          (ihB f.stmts _ res s1 hb).trans (by simp [ScopeChain.push])
        rw [pop_len s1, h1]
        omega
    · intro s c r c' h
      cases s with
      | breakStmt =>
        simp only [execStmt, Option.some.injEq, Prod.mk.injEq] at h
        obtain ⟨-, rfl⟩ := h; rfl
      | expr e =>
        simp only [execStmt] at h
        cases he : evalExpr nenv n e c with
        | none => simp [he] at h
        | some p =>
          obtain ⟨v1, s1⟩ := p
          simp only [he, Option.some.injEq, Prod.mk.injEq] at h
          obtain ⟨-, rfl⟩ := h
          exact ihE e c v1 s1 he
      | fnDef fnId argIds stmts =>
        simp only [execStmt, Option.some.injEq, Prod.mk.injEq] at h
        obtain ⟨-, rfl⟩ := h
        exact insert_func_len c fnId ⟨argIds, stmts⟩
      | ifStmt cond stmts =>
        simp only [execStmt] at h
        cases hc : evalExpr nenv n cond c with
        | none => simp [hc] at h
        | some p =>
          obtain ⟨v1, s1⟩ := p
          simp only [hc] at h
          repeat split at h
          all_goals first
            | (exact (ihB stmts s1 r c' h).trans (ihE cond c _ s1 hc))
            | (simp only [Option.some.injEq, Prod.mk.injEq] at h;
               obtain ⟨-, rfl⟩ := h;
               exact ihE cond c _ s1 hc)
      | ifElse cond stmts elseStmts =>
        simp only [execStmt] at h
        cases hc : evalExpr nenv n cond c with
        | none => simp [hc] at h
        | some p =>
          obtain ⟨v1, s1⟩ := p
          simp only [hc] at h
          repeat split at h
          all_goals first
            | (exact (ihB stmts s1 r c' h).trans (ihE cond c _ s1 hc))
            | (exact (ihB elseStmts s1 r c' h).trans (ihE cond c _ s1 hc))
      | letStmt x e =>
        simp only [execStmt] at h
        cases he : evalExpr nenv n e c with
        | none => simp [he] at h
        | some p =>
          obtain ⟨v1, s1⟩ := p
          simp only [he, Option.some.injEq, Prod.mk.injEq] at h
          obtain ⟨-, rfl⟩ := h
          exact (insert_var_len s1 x v1).trans (ihE e c v1 s1 he)
      | listItemAssignment x idxExpr valExpr =>
        simp only [execStmt] at h
        cases hi : evalExpr nenv n idxExpr c with
        | none => simp [hi] at h
        | some p =>
          obtain ⟨idxV, s1⟩ := p
          simp only [hi] at h
          cases hv : evalExpr nenv n valExpr s1 with
          | none => simp [hv] at h
          | some q =>
            obtain ⟨valV, s2⟩ := q
            simp only [hv] at h
            have hs : c'.scopes.length = s2.scopes.length := by
              cases idxV with
              | int i =>
                simp only [Option.some.injEq, Prod.mk.injEq] at h
                obtain ⟨-, rfl⟩ := h
                exact insert_list_item_len s2 x _ valV
              | str st =>
                simp only [Option.some.injEq, Prod.mk.injEq] at h
                obtain ⟨-, rfl⟩ := h
                exact insert_dict_item_len s2 x st valV
              | none => exact some_pair_len _ _ _ _ h
              | real q2 => exact some_pair_len _ _ _ _ h
              | bool bb => exact some_pair_len _ _ _ _ h
              | list ll => exact some_pair_len _ _ _ _ h
              | dict dd => exact some_pair_len _ _ _ _ h
            exact hs.trans ((ihE valExpr s1 valV s2 hv).trans (ihE idxExpr c _ s1 hi))
      | loop stmts =>
        simp only [execStmt] at h
        cases hb : execBlock nenv n stmts c with
        | none => simp [hb] at h
        | some p =>
          obtain ⟨res, s1⟩ := p
          simp only [hb] at h
          split at h
          · simp only [Option.some.injEq, Prod.mk.injEq] at h
            obtain ⟨-, rfl⟩ := h
            exact ihB stmts c _ s1 hb
          · exact (ihS (Stmt.loop stmts) s1 r c' h).trans (ihB stmts c _ s1 hb)
      | ret e =>
        simp only [execStmt] at h
        cases he : evalExpr nenv n e c with
        | none => simp [he] at h
        | some p =>
          obtain ⟨v1, s1⟩ := p
          simp only [he, Option.some.injEq, Prod.mk.injEq] at h
          obtain ⟨-, rfl⟩ := h
          exact ihE e c v1 s1 he
    · intro b c r c' h
      cases b with
      | nil =>
        simp only [execBlock, Option.some.injEq, Prod.mk.injEq] at h
        obtain ⟨-, rfl⟩ := h; rfl
      | cons stmt rest =>
        simp only [execBlock] at h
        cases hs : execStmt nenv n stmt c with
        | none => simp [hs] at h
        | some p =>
          obtain ⟨res, s1⟩ := p
          simp only [hs] at h
          split at h
          · simp only [Option.some.injEq, Prod.mk.injEq] at h
            obtain ⟨-, rfl⟩ := h
            exact ihS stmt c _ s1 hs
          · simp only [Option.some.injEq, Prod.mk.injEq] at h
            obtain ⟨-, rfl⟩ := h
            exact ihS stmt c _ s1 hs
          · exact (ihB rest s1 r c' h).trans (ihS stmt c _ s1 hs)

/-- C8: every script-function invocation pushes exactly one scope before the
body and pops exactly one scope before returning, on every exit path, so
`Function::execute` leaves the frame count unchanged; consequently `interpret`
(which starts from the single root frame the host supplied) returns a chain
with exactly one frame.  Natives are assumed to preserve the frame count, as
the runtime natives do. -/
theorem scope_discipline (nenv : NativeEnv)
    (hn : ∀ i ch vs, ((nenv i ch vs).2).scopes.length = ch.scopes.length) :
    (∀ n f c args v c', execFunction nenv n f c args = some (v, c') →
       c'.scopes.length = c.scopes.length) ∧
    (∀ parse fuel src scope r, interpret nenv parse fuel src scope = some r →
       r.scope_chain.scopes.length = 1) := by
  constructor
  · intro n f c args v c' h
    exact (chain_length_invariant nenv hn n).2.2.2.1 f c args v c' h
  · intro parse fuel src scope r h
    simp only [interpret] at h
    cases hp : parse src with
    | none =>
      simp only [hp, Option.some.injEq] at h
      subst h; rfl
    | some block =>
      simp only [hp] at h
      cases hb : execBlock nenv fuel block (ScopeChain.from_scope scope) with
      | none => simp [hb] at h
      | some p =>
        obtain ⟨res, s1⟩ := p
        simp only [hb, Option.some.injEq] at h
        subst h
        exact ((chain_length_invariant nenv hn fuel).2.2.2.2.2 block
          (ScopeChain.from_scope scope) res s1 hb).trans rfl

/-- Witness for C8: a concrete call of the function f(x) with body `return x + 1;` and a
concrete `interpret` run of `return 1`, with the frame-preserving default
native environment. -/
theorem scope_discipline_witness :
    fixtureChain.scopes.length = fixtureChain.scopes.length ∧
    (ScopeChain.from_scope Scope.new).scopes.length = 1 :=
  ⟨(scope_discipline defaultNativeEnv (fun _ _ _ => rfl)).1 8 incFunction fixtureChain
      [Value.int 41] (Value.int 42) fixtureChain (by rfl),
   (scope_discipline defaultNativeEnv (fun _ _ _ => rfl)).2
      (fun _ => some [Stmt.ret (Expr.int 1)]) 4 "return 1" Scope.new
      ⟨ExecResult.ret (Value.int 1), ScopeChain.from_scope Scope.new⟩ rfl⟩

/-- C10: when the body execution of a script function yields `ExecResult::Break`
(a `break` with no enclosing loop in the body), the call still pops the
function scope and the call expression evaluates to `Value::None` — `Break`
is consumed at the function boundary rather than propagating to the caller. -/
theorem function_break_gives_none (nenv : NativeEnv) (n : Nat) (f : Function)
    (c : ScopeChain) (args : List Value) (s1 : ScopeChain)
    (hb : execBlock nenv n f.stmts (c.push (Scope.from_args (f.args.zip args))) =
       some (ExecResult.breakResult, s1))
    (hn : ∀ i ch vs, ((nenv i ch vs).2).scopes.length = ch.scopes.length) :
    execFunction nenv (n + 1) f c args = some (Value.none, (s1.pop).2) ∧
    ((s1.pop).2).scopes.length = c.scopes.length := by
  constructor
  · simp [execFunction, hb]
  · have h1 : s1.scopes.length = c.scopes.length + 1 :=
      ((chain_length_invariant nenv hn n).2.2.2.2.2 f.stmts
        (c.push (Scope.from_args (f.args.zip args))) ExecResult.breakResult s1 hb).trans
        (by simp [ScopeChain.push])
    rw [pop_len s1, h1]
    omega

/-- Witness for C10: calling the parameterless function whose body is a bare
`break`. -/
theorem function_break_gives_none_witness :
    execFunction defaultNativeEnv 3 breakFunction fixtureChain [] =
      some (Value.none, ((fixtureChain.push (Scope.from_args [])).pop).2) ∧
    (((fixtureChain.push (Scope.from_args [])).pop).2).scopes.length =
      fixtureChain.scopes.length :=
  function_break_gives_none defaultNativeEnv 2 breakFunction fixtureChain []
    (fixtureChain.push (Scope.from_args [])) rfl (fun _ _ _ => rfl)

end P64Lang
